import Mathlib

/-!
Shallow embedding of the slot/appointment bookkeeping core of the ODF Barber
Shop application (src/app.py), together with proofs about its behaviour.

Modelling conventions:
* SQL dates are modelled as natural numbers (days); `today` is passed to each
  operation that reads the server clock.
* The `Numeric(10, 2)` SQL decimal columns hold exact decimals with two
  fractional digits; they are modelled as integers counting hundredths
  (so the decimal 15000.00 is the integer 1500000).
* Python `float` values are IEEE-754 binary64 numbers; they are modelled as
  dyadic rationals `m * 2 ^ e` given by a mantissa/exponent pair, with
  round-to-nearest, ties-to-even rounding to a 53-bit mantissa.  The model
  is exact for numbers in the normal binary64 range, which covers every
  value reachable from `Numeric(10, 2)` columns.
* The relational store is a record of entity lists.  The schema constraints
  declared on the tables (the `check_appointment_limit` CHECK constraint and
  the raw SQL statements run by the ORM event listeners) are modelled
  explicitly: a statement that would violate the CHECK constraint makes the
  enclosing unit of work fail, leaving the state unchanged, exactly as a
  rolled-back transaction does.
* Customer-facing text fields (name, phone, email, address) are opaque to
  the bookkeeping core; a booking request carries `fieldsPresent`
  (all required form fields are non-empty) and `formatsValid` (the
  email/phone/postal-code regular-expression validators accept) flags in
  their place.
-/

/-- The `AppointmentStatus` enumeration of src/app.py (lines 53-59). -/
inductive AppointmentStatus where
  | PENDING
  | CONFIRMED
  | COMPLETED
  | CANCELLED
  | RESCHEDULED
  | NO_SHOW
deriving DecidableEq, Repr

/-- The `TimeSlotPeriod` enumeration of src/app.py (lines 61-64), in
declaration order. -/
inductive TimeSlotPeriod where
  | MORNING
  | AFTERNOON
  | EVENING
deriving DecidableEq, Repr

/-- Ordinal of a period in the declared enumeration order.  This is the sort
key of the `period` column: the column is a native store-level enumerated
type built from the Python enumeration in declaration order, so `ORDER BY
period` compares these ordinals. -/
def periodOrd : TimeSlotPeriod → ℕ
  | .MORNING => 0
  | .AFTERNOON => 1
  | .EVENING => 2

/-- Number of binary digits of a natural number, driven by explicit fuel so
that the kernel can evaluate it; 1100 halvings cover every number that can
appear in a binary64 computation. -/
def bitlenAux : ℕ → ℕ → ℕ
  | 0, _ => 0
  | f + 1, n => if n = 0 then 0 else bitlenAux f (n / 2) + 1

/-- Number of binary digits of a natural number. -/
def bitlen (n : ℕ) : ℕ := bitlenAux 1100 n

/-- A Python float: an IEEE-754 binary64 value `m * 2 ^ e`. -/
structure PyFloat where
  m : ℤ
  e : ℤ
deriving DecidableEq, Repr

/-- Round a non-negative dyadic `a * 2 ^ e` to a 53-bit mantissa
(round to nearest, ties to even). -/
def round53 (a : ℕ) (e : ℤ) : ℕ × ℤ :=
  let b := bitlen a
  if b ≤ 53 then (a, e)
  else
    let shift := b - 53
    let q := a / 2 ^ shift
    let r := a % 2 ^ shift
    let half := 2 ^ (shift - 1)
    let q' := if half < r then q + 1 else if r < half then q else q + q % 2
    (q', e + shift)

/-- Round a dyadic `m * 2 ^ e` to binary64 precision. -/
def fnorm (m : ℤ) (e : ℤ) : PyFloat :=
  let p := round53 m.natAbs e
  if m < 0 then ⟨-(p.1 : ℤ), p.2⟩ else ⟨(p.1 : ℤ), p.2⟩

/-- Binary64 addition: the exact dyadic sum, rounded to binary64 precision. -/
def floatAdd (x y : PyFloat) : PyFloat :=
  let e := min x.e y.e
  let M := x.m * 2 ^ (x.e - e).toNat + y.m * 2 ^ (y.e - e).toNat
  fnorm M e

/-- Nearest binary64 value to the positive decimal `a / 100` (one direct
rounding, as CPython performs when converting a decimal to a float). -/
def floatOfCentsPos (a : ℕ) : PyFloat :=
  let e0 : ℤ := (bitlen a : ℤ) - 7
  let e : ℤ :=
    if (if 0 ≤ e0 then 100 * 2 ^ e0.toNat ≤ a else 100 ≤ a * 2 ^ (-e0).toNat)
    then e0 else e0 - 1
  let k : ℕ := (52 - e).toNat
  let q := a * 2 ^ k / 100
  let r := a * 2 ^ k % 100
  let mm := if 50 < r then q + 1 else if r < 50 then q else q + q % 2
  ⟨(mm : ℤ), e - 52⟩

/-- `float(price)` for an exact decimal of `cents` hundredths. -/
def pyFloat (cents : ℤ) : PyFloat :=
  if cents = 0 then ⟨0, 0⟩
  else if cents < 0 then
    let p := floatOfCentsPos cents.natAbs
    ⟨-p.m, p.e⟩
  else floatOfCentsPos cents.natAbs

/-- The binary64 value `f` equals the exact decimal `c / 100`, stated by
cross-multiplication so that it is kernel-decidable. -/
def PyFloat.eqCents (f : PyFloat) (c : ℤ) : Prop :=
  if 0 ≤ f.e then 100 * f.m * 2 ^ f.e.toNat = c else 100 * f.m = c * 2 ^ (-f.e).toNat

instance (f : PyFloat) (c : ℤ) : Decidable (f.eqCents c) := by
  unfold PyFloat.eqCents
  infer_instance

/-- The `Barber` model (src/app.py lines 73-98).  Only the columns read by
the bookkeeping core are carried; the contact/profile columns are opaque
text not consulted by any modelled operation. -/
structure Barber where
  id : ℕ
  is_active : Bool
deriving DecidableEq, Repr

/-- The `Service` model (src/app.py lines 100-121).  `price` is the exact
decimal `Numeric(10, 2)` column in hundredths. -/
structure Service where
  id : ℕ
  price : ℤ
  duration_minutes : ℤ
  is_active : Bool
deriving DecidableEq, Repr

/-- The `TimeSlot` model (src/app.py lines 123-155). -/
structure TimeSlot where
  id : ℕ
  date : ℕ
  period : TimeSlotPeriod
  is_available : Bool
  max_appointments : ℤ
  current_appointments : ℤ
  barber_id : ℕ
deriving DecidableEq, Repr

/-- The `Appointment` model (src/app.py lines 157-216).  Customer identity
and address columns are opaque text validated at the boundary and are not
carried. -/
structure Appointment where
  id : ℕ
  time_slot_id : ℕ
  barber_id : ℕ
  status : AppointmentStatus
  estimated_duration : Option ℤ
  estimated_price : Option PyFloat
  confirmed_at : Option ℕ
  completed_at : Option ℕ
  cancelled_at : Option ℕ
  services : List Service
deriving DecidableEq, Repr

/-- `TimeSlot.validate_current_appointments` (src/app.py lines 151-155):
the ORM validator run when the counter attribute is assigned. -/
def validate_current_appointments (max_appointments value : ℤ) : Except String ℤ :=
  if value > max_appointments then
    Except.error "Current appointments cannot exceed maximum allowed"
  else Except.ok value

/-- The `check_appointment_limit` CHECK constraint of the time-slot table
(src/app.py line 136): `current_appointments <= max_appointments`.  The
schema declares no lower bound. -/
def check_appointment_limit (current_appointments max_appointments : ℤ) : Bool :=
  decide (current_appointments ≤ max_appointments)

/-- The CASE expression of the `appointment_after_delete` listener
(src/app.py line 243): decrement by one, floored at zero. -/
def flooredDecrement (current_appointments : ℤ) : ℤ :=
  if 0 < current_appointments then current_appointments - 1 else 0

/-- `appointment_after_insert` (src/app.py lines 232-238): the raw SQL
`UPDATE odf_time_slots SET current_appointments = current_appointments + 1
WHERE id = :slot_id`, run inside the transaction that inserts the
appointment.  Every updated row is re-checked against the
`check_appointment_limit` CHECK constraint; a violation aborts the
statement and hence the whole unit of work (`none`). -/
def appointment_after_insert (slots : List TimeSlot) (slot_id : ℕ) :
    Option (List TimeSlot) :=
  if (slots.map fun s =>
        if s.id == slot_id then
          { s with current_appointments := s.current_appointments + 1 } else s).all
      (fun s => !(s.id == slot_id) ||
        check_appointment_limit s.current_appointments s.max_appointments)
  then
    some (slots.map fun s =>
      if s.id == slot_id then
        { s with current_appointments := s.current_appointments + 1 } else s)
  else none

/-- `appointment_after_delete` (src/app.py lines 240-246): the raw SQL
`UPDATE odf_time_slots SET current_appointments = CASE WHEN
current_appointments > 0 THEN current_appointments - 1 ELSE 0 END WHERE
id = :slot_id`, subject to the same CHECK constraint. -/
def appointment_after_delete (slots : List TimeSlot) (slot_id : ℕ) :
    Option (List TimeSlot) :=
  if (slots.map fun s =>
        if s.id == slot_id then
          { s with current_appointments := flooredDecrement s.current_appointments }
        else s).all
      (fun s => !(s.id == slot_id) ||
        check_appointment_limit s.current_appointments s.max_appointments)
  then
    some (slots.map fun s =>
      if s.id == slot_id then
        { s with current_appointments := flooredDecrement s.current_appointments }
      else s)
  else none

/-- `Appointment.update_status` (src/app.py lines 201-209). -/
def update_status (a : Appointment) (new_status : AppointmentStatus) (now : ℕ) :
    Appointment :=
  let a' := { a with status := new_status }
  match new_status with
  | .CONFIRMED => { a' with confirmed_at := some now }
  | .COMPLETED => { a' with completed_at := some now }
  | .CANCELLED => { a' with cancelled_at := some now }
  | _ => a'

/-- `Appointment.calculate_totals` (src/app.py lines 211-216):
`total_duration` is the Python integer sum of the durations;
`total_price` is `sum(float(service.price) for service in self.services)`,
a left fold of binary64 additions starting from zero. -/
def calculate_totals (a : Appointment) : Appointment :=
  { a with
    estimated_duration := some (a.services.foldl (fun acc s => acc + s.duration_minutes) 0)
    estimated_price :=
      some (a.services.foldl (fun acc s => floatAdd acc (pyFloat s.price)) ⟨0, 0⟩) }

/-- The whole relational store. -/
structure DBState where
  slots : List TimeSlot
  appointments : List Appointment
  barbers : List Barber
  services : List Service
  nextSlotId : ℕ
  nextApptId : ℕ
deriving DecidableEq, Repr

/-- `TimeSlot.query.get(id)` — primary-key lookup. -/
def findSlot (st : DBState) (timeslot_id : ℕ) : Option TimeSlot :=
  st.slots.find? (fun s => s.id == timeslot_id)

/-- Replace the first element satisfying `p` (an ORM attribute update on a
row fetched by primary key rewrites exactly that row). -/
def replaceFirst (p : α → Bool) (f : α → α) : List α → List α
  | [] => []
  | a :: as => if p a then f a :: as else a :: replaceFirst p f as

/-- The service-resolution loop of the booking route (src/app.py lines
365-369): each requested id is looked up and kept only when it exists and
is active; ids that do not resolve are dropped without any report. -/
def selected_services (services : List Service) (service_ids : List ℕ) :
    List Service :=
  service_ids.filterMap fun sid =>
    match services.find? (fun s => s.id == sid) with
    | some s => if s.is_active then some s else none
    | none => none

/-- A booking request (the POST form of `/book`).  The opaque text fields
are summarised by the two boundary-validation flags. -/
structure BookingRequest where
  fieldsPresent : Bool
  formatsValid : Bool
  timeSlot : ℕ
  servicesNeeded : List ℕ
  barber : ℕ
deriving DecidableEq, Repr

/-- The distinct user-reported failure reasons of the booking route. -/
inductive BookError where
  | missingFields
  | slotNotFound
  | slotUnavailable
  | noValidService
  | barberNotFound
  | invalidData
  | dbError
deriving DecidableEq, Repr

/-- Outcome of a booking attempt. -/
inductive BookResult where
  | created (appointment_id : ℕ)
  | rejected (reason : BookError)
deriving DecidableEq, Repr

/-- The POST branch of `book_appointment` (src/app.py lines 308-444), in
source order: required-field check, slot lookup (`get_or_404`), fullness and
availability check, service resolution, barber lookup, appointment
construction (whose column validators reject ill-formatted text), then the
commit that fires `appointment_after_insert` in the same transaction.
Every failure path leaves the store untouched. -/
def book_appointment (st : DBState) (req : BookingRequest) :
    DBState × BookResult :=
  if !req.fieldsPresent || req.servicesNeeded.isEmpty then
    (st, .rejected .missingFields)
  else
    match findSlot st req.timeSlot with
    | none => (st, .rejected .slotNotFound)
    | some time_slot =>
      if decide (time_slot.max_appointments ≤ time_slot.current_appointments) ||
          !time_slot.is_available then
        (st, .rejected .slotUnavailable)
      else if (selected_services st.services req.servicesNeeded).isEmpty then
        (st, .rejected .noValidService)
      else
        match st.barbers.find? (fun b => b.id == req.barber) with
        | none => (st, .rejected .barberNotFound)
        | some barber =>
          if !req.formatsValid then (st, .rejected .invalidData)
          else
            match appointment_after_insert st.slots time_slot.id with
            | none => (st, .rejected .dbError)
            | some slots' =>
              ({ st with
                  slots := slots'
                  appointments :=
                    calculate_totals
                      ⟨st.nextApptId, time_slot.id, barber.id, .PENDING,
                        none, none, none, none, none,
                        selected_services st.services req.servicesNeeded⟩
                      :: st.appointments
                  nextApptId := st.nextApptId + 1 },
                .created st.nextApptId)

/-- `delete_appointment` (src/app.py lines 774-789): look up by primary key
(404 on a miss), delete the row, and fire `appointment_after_delete` in the
same transaction; a constraint violation rolls the whole unit back. -/
def delete_appointment (st : DBState) (appointment_id : ℕ) : DBState :=
  match st.appointments.find? (fun a => a.id == appointment_id) with
  | none => st
  | some a =>
    match appointment_after_delete st.slots a.time_slot_id with
    | none => st
    | some slots' =>
      { st with
        slots := slots'
        appointments := st.appointments.eraseP (fun x => x.id == appointment_id) }

/-- `update_appointment_status` (src/app.py lines 747-772): look up the
appointment, run `update_status`, persist.  Slots are never touched. -/
def update_appointment_status (st : DBState) (appointment_id : ℕ)
    (new_status : AppointmentStatus) (now : ℕ) : DBState :=
  match st.appointments.find? (fun a => a.id == appointment_id) with
  | none => st
  | some _ =>
    { st with
      appointments :=
        replaceFirst (fun a => a.id == appointment_id)
          (fun a => update_status a new_status now) st.appointments }

/-- `toggle_timeslot_availability` (src/app.py lines 558-572). -/
def toggle_timeslot_availability (st : DBState) (timeslot_id : ℕ) : DBState :=
  match findSlot st timeslot_id with
  | none => st
  | some _ =>
    { st with
      slots :=
        replaceFirst (fun s => s.id == timeslot_id)
          (fun s => { s with is_available := !s.is_available }) st.slots }

/-- A slot for the given (date, period, barber) key already exists
(the `filter_by(date=..., period=..., barber_id=...).first()` queries). -/
def slotExists (slots : List TimeSlot) (date : ℕ) (period : TimeSlotPeriod)
    (barber_id : ℕ) : Bool :=
  slots.any fun s =>
    s.date == date && decide (s.period = period) && s.barber_id == barber_id

/-- `add_timeslot` (src/app.py lines 585-640): validate the barber (exists
and active), reject a duplicate (date, period, barber) key, then construct
the slot — construction runs `validate_date` (no past dates) and
`validate_current_appointments` (the initial zero may not exceed the chosen
capacity); a validator failure aborts the request with no state change. -/
def add_timeslot (st : DBState) (today date : ℕ) (period : TimeSlotPeriod)
    (barber_id : ℕ) (max_appointments : ℤ) : DBState :=
  match st.barbers.find? (fun b => b.id == barber_id) with
  | none => st
  | some b =>
    if !b.is_active then st
    else if slotExists st.slots date period barber_id then st
    else if date < today then st
    else if max_appointments < 0 then st
    else
      { st with
        slots := st.slots ++
          [⟨st.nextSlotId, date, period, true, max_appointments, 0, barber_id⟩]
        nextSlotId := st.nextSlotId + 1 }

/-- `edit_timeslot` (src/app.py lines 642-699): look up the slot, validate
the barber, refuse a capacity below the booked count, refuse a duplicate
(date, period, barber) key on another slot, then assign the new columns —
the date assignment runs `validate_date`, whose failure rolls back. -/
def edit_timeslot (st : DBState) (timeslot_id : ℕ) (today date : ℕ)
    (period : TimeSlotPeriod) (barber_id : ℕ) (max_appointments : ℤ) : DBState :=
  match findSlot st timeslot_id with
  | none => st
  | some timeslot =>
    match st.barbers.find? (fun b => b.id == barber_id) with
    | none => st
    | some b =>
      if !b.is_active then st
      else if max_appointments < timeslot.current_appointments then st
      else if st.slots.any (fun s =>
          s.date == date && decide (s.period = period) &&
          s.barber_id == barber_id && !(s.id == timeslot_id)) then st
      else if date < today then st
      else
        { st with
          slots :=
            replaceFirst (fun s => s.id == timeslot_id)
              (fun s =>
                { s with
                  date := date
                  period := period
                  barber_id := barber_id
                  max_appointments := max_appointments }) st.slots }

/-- `delete_timeslot` (src/app.py lines 701-723): refuse with a conflict
when any appointments are booked, otherwise remove the row. -/
def delete_timeslot (st : DBState) (timeslot_id : ℕ) : DBState :=
  match findSlot st timeslot_id with
  | none => st
  | some timeslot =>
    if 0 < timeslot.current_appointments then st
    else { st with slots := st.slots.eraseP (fun s => s.id == timeslot_id) }

/-- The (day offset, period) pairs visited by `generate_time_slots`:
each day in `[today, today + days_ahead)`, each period in declaration
order. -/
def genPairs (today days_ahead : ℕ) : List (ℕ × TimeSlotPeriod) :=
  (List.range days_ahead).flatMap fun i =>
    [(today + i, .MORNING), (today + i, .AFTERNOON), (today + i, .EVENING)]

/-- One iteration of the generation loop: add a fresh slot with capacity 2
unless one already exists for the (date, period, barber) key.  The pending
adds are visible to the existence query (the ORM flushes before querying),
so the accumulator includes them. -/
def genStep (barber_id : ℕ) (acc : List TimeSlot × ℕ) (p : ℕ × TimeSlotPeriod) :
    List TimeSlot × ℕ :=
  if slotExists acc.1 p.1 p.2 barber_id then acc
  else (acc.1 ++ [⟨acc.2, p.1, p.2, true, 2, 0, barber_id⟩], acc.2 + 1)

/-- `generate_time_slots` (src/app.py lines 973-988): pick the first active
barber (doing nothing when there is none), then for each day in
`[today, today + days_ahead)` and each period create a slot with
`max_appointments = 2` unless one already exists for that
(date, period, barber) key. -/
def generate_time_slots (st : DBState) (today days_ahead : ℕ) : DBState :=
  match st.barbers.find? (fun b => b.is_active) with
  | none => st
  | some barber =>
    { st with
      slots := ((genPairs today days_ahead).foldl (genStep barber.id)
        (st.slots, st.nextSlotId)).1
      nextSlotId := ((genPairs today days_ahead).foldl (genStep barber.id)
        (st.slots, st.nextSlotId)).2 }

/-- `toggle_barber` (src/app.py lines 896-908). -/
def toggle_barber (st : DBState) (barber_id : ℕ) : DBState :=
  match st.barbers.find? (fun b => b.id == barber_id) with
  | none => st
  | some _ =>
    { st with
      barbers :=
        replaceFirst (fun b => b.id == barber_id)
          (fun b => { b with is_active := !b.is_active }) st.barbers }

/-- `toggle_service_status` (src/app.py lines 846-858). -/
def toggle_service_status (st : DBState) (service_id : ℕ) : DBState :=
  match st.services.find? (fun s => s.id == service_id) with
  | none => st
  | some _ =>
    { st with
      services :=
        replaceFirst (fun s => s.id == service_id)
          (fun s => { s with is_active := !s.is_active }) st.services }

/-- The mutating operations of the system, each carrying the clock values
it reads. -/
inductive Op where
  | book (req : BookingRequest)
  | deleteAppt (appointment_id : ℕ)
  | setStatus (appointment_id : ℕ) (new_status : AppointmentStatus) (now : ℕ)
  | addSlot (today date : ℕ) (period : TimeSlotPeriod) (barber_id : ℕ)
      (max_appointments : ℤ)
  | editSlot (timeslot_id : ℕ) (today date : ℕ) (period : TimeSlotPeriod)
      (barber_id : ℕ) (max_appointments : ℤ)
  | delSlot (timeslot_id : ℕ)
  | toggleSlot (timeslot_id : ℕ)
  | genSlots (today days_ahead : ℕ)
  | toggleBarber (barber_id : ℕ)
  | toggleService (service_id : ℕ)

/-- Dispatch an operation against the store. -/
def applyOp (st : DBState) : Op → DBState
  | .book req => (book_appointment st req).1
  | .deleteAppt id => delete_appointment st id
  | .setStatus id ns now => update_appointment_status st id ns now
  | .addSlot today date period bid maxA => add_timeslot st today date period bid maxA
  | .editSlot id today date period bid maxA =>
      edit_timeslot st id today date period bid maxA
  | .delSlot id => delete_timeslot st id
  | .toggleSlot id => toggle_timeslot_availability st id
  | .genSlots today d => generate_time_slots st today d
  | .toggleBarber id => toggle_barber st id
  | .toggleService id => toggle_service_status st id

/-- States reachable from a freshly created store (any catalog, no slots,
no appointments) by any sequence of operations. -/
inductive Reachable : DBState → Prop
  | init (barbers : List Barber) (services : List Service) :
      Reachable
        { slots := []
          appointments := []
          barbers := barbers
          services := services
          nextSlotId := 1
          nextApptId := 1 }
  | step (st : DBState) (op : Op) : Reachable st → Reachable (applyOp st op)

/-- The capacity invariant: every slot row satisfies
`0 <= current_appointments <= max_appointments`. -/
def slotsInv (slots : List TimeSlot) : Prop :=
  ∀ s ∈ slots, 0 ≤ s.current_appointments ∧
    s.current_appointments ≤ s.max_appointments

instance (slots : List TimeSlot) : Decidable (slotsInv slots) := by
  unfold slotsInv
  infer_instance

/-- The filter of the bookable-slot query of the booking page (src/app.py
lines 286-295): date within the closed range `[today, today + 5]`,
available, and strictly below capacity. -/
def bookablePred (today : ℕ) (s : TimeSlot) : Bool :=
  decide (today ≤ s.date) && decide (s.date ≤ today + 5) && s.is_available &&
    decide (s.current_appointments < s.max_appointments)

/-- The `ORDER BY date, period` ordering: date ascending, then period by
its declared enumeration ordinal. -/
def slotLE (a b : TimeSlot) : Prop :=
  a.date < b.date ∨ (a.date = b.date ∧ periodOrd a.period ≤ periodOrd b.period)

instance : DecidableRel slotLE := fun a b =>
  inferInstanceAs (Decidable (a.date < b.date ∨
    (a.date = b.date ∧ periodOrd a.period ≤ periodOrd b.period)))

instance : IsTotal TimeSlot slotLE where
  total a b := by
    unfold slotLE
    rcases Nat.lt_trichotomy a.date b.date with h | h | h
    · exact Or.inl (Or.inl h)
    · rcases Nat.le_total (periodOrd a.period) (periodOrd b.period) with hp | hp
      · exact Or.inl (Or.inr ⟨h, hp⟩)
      · exact Or.inr (Or.inr ⟨h.symm, hp⟩)
    · exact Or.inr (Or.inl h)

instance : IsTrans TimeSlot slotLE where
  trans a b c hab hbc := by
    unfold slotLE at *
    rcases hab with h1 | ⟨h1, h1p⟩ <;> rcases hbc with h2 | ⟨h2, h2p⟩
    · exact Or.inl (h1.trans h2)
    · exact Or.inl (h2 ▸ h1)
    · exact Or.inl (h1 ▸ h2)
    · exact Or.inr ⟨h1.trans h2, h1p.trans h2p⟩

/-- The bookable-slot query (src/app.py lines 284-295): filter, then
`ORDER BY date, period`.  A pure read: it returns a list and touches no
state. -/
def findBookable (slots : List TimeSlot) (today : ℕ) : List TimeSlot :=
  List.insertionSort slotLE (slots.filter (bookablePred today))

/-! ### Concrete fixtures used by witnesses and counterexamples -/

/-- The Classic Cut service of the seed data: price 15000.00, 45 minutes. -/
def svcClassicCut : Service := ⟨1, 1500000, 45, true⟩

/-- The Beard Sculpt service of the seed data: price 10000.00, 30 minutes. -/
def svcBeardSculpt : Service := ⟨2, 1000000, 30, true⟩

/-- A service priced at the exact decimal 0.10. -/
def svcTenCents : Service := ⟨3, 10, 15, true⟩

/-- A service priced at the exact decimal 0.20. -/
def svcTwentyCents : Service := ⟨4, 20, 15, true⟩

/-- An appointment carrying the two seed services. -/
def apptSeedServices : Appointment :=
  ⟨1, 1, 1, .PENDING, none, none, none, none, none, [svcClassicCut, svcBeardSculpt]⟩

/-- An appointment carrying the 0.10 and 0.20 services. -/
def apptCentServices : Appointment :=
  ⟨2, 1, 1, .PENDING, none, none, none, none, none, [svcTenCents, svcTwentyCents]⟩

/-- A store holding one empty slot and one booked slot, used to instantiate
the slot-deletion theorem. -/
def stTwoSlots : DBState :=
  { slots :=
      [⟨1, 10, .MORNING, true, 2, 0, 1⟩, ⟨2, 10, .AFTERNOON, true, 2, 1, 1⟩]
    appointments := []
    barbers := [⟨1, true⟩]
    services := [svcClassicCut]
    nextSlotId := 3
    nextApptId := 1 }

/-- A store with one available slot (capacity 2, one booking), one active
barber and one active service. -/
def stBooking : DBState :=
  { slots := [⟨5, 10, .MORNING, true, 2, 1, 1⟩]
    appointments := []
    barbers := [⟨1, true⟩]
    services := [svcClassicCut]
    nextSlotId := 6
    nextApptId := 1 }

/-- A well-formed booking request for slot 5 with service 1 and barber 1. -/
def reqValid : BookingRequest := ⟨true, true, 5, [1], 1⟩

/-- A store holding one appointment on slot 5 (counter 1). -/
def stWithAppt : DBState :=
  { slots := [⟨5, 10, .MORNING, true, 2, 1, 1⟩]
    appointments :=
      [⟨1, 5, 1, .PENDING, none, none, none, none, none, [svcClassicCut]⟩]
    barbers := [⟨1, true⟩]
    services := [svcClassicCut]
    nextSlotId := 6
    nextApptId := 2 }

/-- A booking request listing the valid service 1 together with the
nonexistent service id 99. -/
def reqWithBogusService : BookingRequest := ⟨true, true, 5, [1, 99], 1⟩

/-- A request whose required fields are incomplete. -/
def reqNoFields : BookingRequest := ⟨false, true, 5, [1], 1⟩

/-- A fresh store with an active barber and no slots. -/
def stEmptySlots : DBState :=
  { slots := []
    appointments := []
    barbers := [⟨1, true⟩]
    services := []
    nextSlotId := 1
    nextApptId := 1 }

/-! ### C4 — concurrent bookings against one slot

The booking route performs a non-authoritative admission read (src/app.py
lines 345-348) and then commits the appointment insert together with the
counter increment in one transaction whose increment is guarded by the
`check_appointment_limit` CHECK constraint (lines 136, 232-238): the
transaction commits and increments only when `current < max` still holds
at commit time, and aborts as a conflict otherwise.  The model below lets
any number of such clients interleave their read and commit steps against
the shared slot row. -/

/-- Phase of one booking client: before the admission read, past the read,
committed, or rejected as full. -/
inductive ConcPhase where
  | start
  | passed
  | done
  | rejected
deriving DecidableEq, Repr

/-- The shared slot row and the phases of the concurrent clients. -/
structure ConcState where
  current_appointments : ℤ
  max_appointments : ℤ
  clients : List ConcPhase
deriving DecidableEq, Repr

/-- One interleaving step: a client reads the counter (passing or being
turned away), or commits its transaction (the atomic insert-plus-increment
succeeding only while capacity remains, aborting otherwise). -/
inductive ConcStep : ConcState → ConcState → Prop
  | read_ok (cur maxA : ℤ) (l1 l2 : List ConcPhase) (h : cur < maxA) :
      ConcStep ⟨cur, maxA, l1 ++ .start :: l2⟩ ⟨cur, maxA, l1 ++ .passed :: l2⟩
  | read_full (cur maxA : ℤ) (l1 l2 : List ConcPhase) (h : maxA ≤ cur) :
      ConcStep ⟨cur, maxA, l1 ++ .start :: l2⟩
        ⟨cur, maxA, l1 ++ .rejected :: l2⟩
  | commit_ok (cur maxA : ℤ) (l1 l2 : List ConcPhase) (h : cur < maxA) :
      ConcStep ⟨cur, maxA, l1 ++ .passed :: l2⟩
        ⟨cur + 1, maxA, l1 ++ .done :: l2⟩
  | commit_full (cur maxA : ℤ) (l1 l2 : List ConcPhase) (h : maxA ≤ cur) :
      ConcStep ⟨cur, maxA, l1 ++ .passed :: l2⟩
        ⟨cur, maxA, l1 ++ .rejected :: l2⟩

/-- Interleaved execution: any finite sequence of steps. -/
def ConcReach : ConcState → ConcState → Prop := Relation.ReflTransGen ConcStep

/-- All clients have finished (committed or been rejected). -/
def ConcTerminal (st : ConcState) : Prop :=
  ConcPhase.start ∉ st.clients ∧ ConcPhase.passed ∉ st.clients

/-- Number of clients in a given phase. -/
def countPhase (c : ConcPhase) : List ConcPhase → ℕ
  | [] => 0
  | x :: xs => (if x = c then 1 else 0) + countPhase c xs

/-- The inductive invariant of the interleaving: the counter equals its
initial value plus the committed clients, never exceeds capacity, and a
rejection can only ever have happened at full capacity. -/
def ConcInv (cur0 maxA : ℤ) (n : ℕ) (st : ConcState) : Prop :=
  st.max_appointments = maxA ∧
  st.clients.length = n ∧
  st.current_appointments = cur0 + (countPhase .done st.clients : ℤ) ∧
  st.current_appointments ≤ maxA ∧
  (ConcPhase.rejected ∈ st.clients → st.current_appointments = maxA)

instance (st : ConcState) : Decidable (ConcTerminal st) := by
  unfold ConcTerminal
  infer_instance

/-! ### C5 — appointment totals -/

/-- C5 counterexample: `calculate_totals` does NOT use exact decimal
arithmetic.  For services priced at the exact decimals 0.10 and 0.20 the
exact decimal sum is 0.30, but the code sums Python floats: it produces the
binary64 value `5404319552844596 * 2 ^ (-54)` (the float printed
`0.30000000000000004`), which differs from the exact decimal 0.30. -/
theorem c5_float_sum_not_exact_decimal :
    (calculate_totals apptCentServices).estimated_price =
      some ⟨5404319552844596, -54⟩ ∧
    ¬ (PyFloat.eqCents ⟨5404319552844596, -54⟩ 30) := by
  decide

/-- C5 (amended): `calculate_totals` sets `estimated_duration` to the exact
integer sum of the durations and `estimated_price` to the binary64
floating-point sum of the prices (not an exact decimal sum).  For prices
whose values are exactly representable in binary64 — such as 15000.00 and
10000.00 with durations 45 and 30 — the float sum is exact: the price is
exactly 25000.00 and the duration 75.  The function recomputes both totals
from the attached services, so it is idempotent. -/
theorem c5_totals_float_sum_exact_on_representable :
    ((calculate_totals apptSeedServices).estimated_duration = some 75 ∧
      (calculate_totals apptSeedServices).estimated_price = some (pyFloat 2500000) ∧
      PyFloat.eqCents (pyFloat 2500000) 2500000) ∧
    ∀ a : Appointment, calculate_totals (calculate_totals a) = calculate_totals a := by
  refine ⟨by decide, fun a => rfl⟩

/-! ### C7 — status updates stamp timestamps and never touch capacity -/

/-- C7: for every appointment and every new status, `update_status` sets the
status (no transition is forbidden — the result status is the requested one
whatever the prior status was), stamps the matching timestamp with the
current time on a transition into CONFIRMED / COMPLETED / CANCELLED
(overwriting any prior value), leaves the other timestamps alone, and the
status route never modifies any slot, so no capacity is released — not even
on a transition to CANCELLED. -/
theorem c7_update_status_stamps_and_keeps_capacity :
    ∀ (a : Appointment) (ns : AppointmentStatus) (now : ℕ) (st : DBState) (id : ℕ),
      (update_status a ns now).status = ns ∧
      (update_status a ns now).confirmed_at =
        (if ns = .CONFIRMED then some now else a.confirmed_at) ∧
      (update_status a ns now).completed_at =
        (if ns = .COMPLETED then some now else a.completed_at) ∧
      (update_status a ns now).cancelled_at =
        (if ns = .CANCELLED then some now else a.cancelled_at) ∧
      (update_status a ns now).time_slot_id = a.time_slot_id ∧
      (update_appointment_status st id ns now).slots = st.slots := by
  intro a ns now st id
  refine ⟨?_, ?_, ?_, ?_, ?_, ?_⟩
  · cases ns <;> rfl
  · cases ns <;> simp [update_status]
  · cases ns <;> simp [update_status]
  · cases ns <;> simp [update_status]
  · cases ns <;> rfl
  · unfold update_appointment_status
    cases st.appointments.find? (fun x => x.id == id) <;> rfl

/-! ### C9 — deleting a time slot -/

/-- C9: deleting a slot whose `current_appointments` is positive fails with
a conflict and changes nothing; deleting a slot whose counter is not
positive removes exactly that slot, and the appointment table is untouched
in both cases. -/
theorem c9_delete_timeslot_conflict_or_remove (st : DBState) (timeslot_id : ℕ)
    (s : TimeSlot) (hfind : findSlot st timeslot_id = some s) :
    (0 < s.current_appointments → delete_timeslot st timeslot_id = st) ∧
    (¬ 0 < s.current_appointments →
      delete_timeslot st timeslot_id =
        { st with slots := st.slots.eraseP (fun t => t.id == timeslot_id) }) ∧
    (delete_timeslot st timeslot_id).appointments = st.appointments := by
  unfold delete_timeslot
  rw [hfind]
  refine ⟨fun h => by simp [h], fun h => by simp [h], ?_⟩
  by_cases h : 0 < s.current_appointments <;> simp [h]

/-- C9 witness: on `stTwoSlots`, deleting empty slot 1 removes it, and
deleting booked slot 2 is refused with no state change. -/
theorem c9_delete_timeslot_witness :
    delete_timeslot stTwoSlots 1 =
      { stTwoSlots with
          slots := stTwoSlots.slots.eraseP (fun t => t.id == 1) } ∧
    delete_timeslot stTwoSlots 2 = stTwoSlots :=
  ⟨(c9_delete_timeslot_conflict_or_remove stTwoSlots 1
      ⟨1, 10, .MORNING, true, 2, 0, 1⟩ (by decide)).2.1 (by decide),
    (c9_delete_timeslot_conflict_or_remove stTwoSlots 2
      ⟨2, 10, .AFTERNOON, true, 2, 1, 1⟩ (by decide)).1 (by decide)⟩

/-! ### C10 — the validator imposes no lower bound -/

/-- C10: the ORM validator on `current_appointments` rejects only values
strictly above the capacity, so every negative value passes it whenever the
capacity is non-negative; the schema CHECK constraint likewise accepts every
value not above the capacity (it declares no lower bound); and the floored
decrement of the delete listener is the only guard that keeps the counter
non-negative — its result is never negative. -/
theorem c10_no_lower_bound (max_appointments v : ℤ) (hv : v < 0)
    (hmax : 0 ≤ max_appointments) :
    validate_current_appointments max_appointments v = Except.ok v ∧
    check_appointment_limit v max_appointments = true ∧
    ∀ c : ℤ, 0 ≤ flooredDecrement c := by
  refine ⟨?_, ?_, ?_⟩
  · unfold validate_current_appointments
    rw [if_neg (by omega)]
  · unfold check_appointment_limit
    simp only [decide_eq_true_eq]
    omega
  · intro c
    unfold flooredDecrement
    split <;> omega

/-- C10 witness: assigning the negative counter value -5 against capacity 1
passes both the validator and the CHECK constraint, and the floored
decrement of -7 is non-negative. -/
theorem c10_no_lower_bound_witness :
    validate_current_appointments 1 (-5) = Except.ok (-5) ∧
    check_appointment_limit (-5) 1 = true ∧
    0 ≤ flooredDecrement (-7) :=
  ⟨(c10_no_lower_bound 1 (-5) (by decide) (by decide)).1,
    (c10_no_lower_bound 1 (-5) (by decide) (by decide)).2.1,
    (c10_no_lower_bound 1 (-5) (by decide) (by decide)).2.2 (-7)⟩

/-! ### C3 — the bookable-slot query -/

/-- C3: the bookable-slot listing is a pure query returning exactly the
slots that are available, strictly below capacity and dated within the
closed range `[today, today + 5]`; the result is ordered by date ascending
and then by the declared enumeration ordinal of the period, an order on
which MORNING comes before AFTERNOON before EVENING (not the alphabetical
order of the member names). -/
theorem c3_findBookable_filter_and_order (slots : List TimeSlot) (today : ℕ) :
    (findBookable slots today).Perm (slots.filter (bookablePred today)) ∧
    List.Sorted slotLE (findBookable slots today) ∧
    (∀ s, s ∈ findBookable slots today ↔
      s ∈ slots ∧ today ≤ s.date ∧ s.date ≤ today + 5 ∧
        s.is_available = true ∧
        s.current_appointments < s.max_appointments) ∧
    periodOrd .MORNING < periodOrd .AFTERNOON ∧
    periodOrd .AFTERNOON < periodOrd .EVENING := by
  refine ⟨List.perm_insertionSort slotLE _, List.sorted_insertionSort slotLE _,
    ?_, by decide, by decide⟩
  intro s
  unfold findBookable
  rw [(List.perm_insertionSort slotLE _).mem_iff, List.mem_filter]
  unfold bookablePred
  simp [and_assoc]

/-! ### Helper lemmas about the store operations -/

/-- A lookup returns a matching head. -/
theorem find?_head_pos {α} (p : α → Bool) (a : α) (l : List α)
    (h : p a = true) : List.find? p (a :: l) = some a := by
  simp [List.find?, h]

/-- A lookup skips a non-matching head. -/
theorem find?_head_neg {α} (p : α → Bool) (a : α) (l : List α)
    (h : p a = false) : List.find? p (a :: l) = List.find? p l := by
  simp [List.find?, h]

/-- An ORM update of the rows selected by an id commutes with a lookup by
that id. -/
theorem find?_update_by_id (l : List TimeSlot) (tsid : ℕ)
    (g : TimeSlot → TimeSlot) (hg : ∀ s, (g s).id = s.id) :
    (l.map fun s => if s.id == tsid then g s else s).find?
        (fun s => s.id == tsid)
      = (l.find? (fun s => s.id == tsid)).map g := by
  induction l with
  | nil => rfl
  | cons a as ih =>
    simp only [List.map_cons]
    by_cases h : (a.id == tsid) = true
    · have hg' : ((g a).id == tsid) = true := by
        rw [beq_iff_eq, hg]
        exact beq_iff_eq.mp h
      rw [if_pos h, find?_head_pos (fun s : TimeSlot => s.id == tsid) _ _ hg',
        find?_head_pos (fun s : TimeSlot => s.id == tsid) _ _ h, Option.map_some']
    · have h' : (a.id == tsid) = false := by simpa using h
      rw [if_neg h, find?_head_neg (fun s : TimeSlot => s.id == tsid) _ _ h',
        find?_head_neg (fun s : TimeSlot => s.id == tsid) _ _ h', ih]

/-- Membership after replacing the first row matched by `p`: an element is
either an untouched original row or the image of the row that a lookup by
`p` returns. -/
theorem mem_replaceFirst {p : α → Bool} {f : α → α} {l : List α} {x : α}
    (hx : x ∈ replaceFirst p f l) :
    x ∈ l ∨ ∃ a, l.find? p = some a ∧ x = f a := by
  induction l with
  | nil => cases hx
  | cons a as ih =>
    unfold replaceFirst at hx
    by_cases h : (p a) = true
    · rw [if_pos h] at hx
      rcases List.mem_cons.1 hx with rfl | hmem
      · exact Or.inr ⟨a, List.find?_cons_of_pos _ h, rfl⟩
      · exact Or.inl (List.mem_cons_of_mem _ hmem)
    · rw [if_neg h] at hx
      rcases List.mem_cons.1 hx with rfl | hmem
      · exact Or.inl (List.mem_cons_self _ _)
      · rcases ih hmem with h1 | ⟨b, hb, rfl⟩
        · exact Or.inl (List.mem_cons_of_mem _ h1)
        · exact Or.inr ⟨b, by rw [List.find?_cons_of_neg _ h]; exact hb, rfl⟩

/-- A successful capacity increment preserves the capacity invariant. -/
theorem slotsInv_afterInsert {slots : List TimeSlot} {sid : ℕ}
    {l : List TimeSlot} (h : appointment_after_insert slots sid = some l)
    (hinv : slotsInv slots) : slotsInv l := by
  unfold appointment_after_insert at h
  split at h
  case isFalse => cases h
  case isTrue hall =>
    cases h
    intro x hx
    obtain ⟨s, hs, rfl⟩ := List.mem_map.1 hx
    have hinvs := hinv s hs
    by_cases hid : (s.id == sid) = true
    · rw [if_pos hid]
      have hcheck := List.all_eq_true.1 hall _
        (List.mem_map_of_mem (fun s => if s.id == sid then
          { s with current_appointments := s.current_appointments + 1 } else s) hs)
      rw [if_pos hid] at hcheck
      simp only [hid, Bool.not_true, Bool.false_or, check_appointment_limit,
        decide_eq_true_eq] at hcheck
      constructor
      · simp only []
        omega
      · exact hcheck
    · rw [if_neg hid]
      exact hinvs

/-- When the capacity invariant holds, the floored decrement of the delete
listener always satisfies the CHECK constraint, so the update succeeds and
produces exactly the floored-decrement row rewrite. -/
theorem afterDelete_of_inv {slots : List TimeSlot} (sid : ℕ)
    (hinv : slotsInv slots) :
    appointment_after_delete slots sid =
      some (slots.map fun s => if s.id == sid then
        { s with current_appointments := flooredDecrement s.current_appointments }
        else s) := by
  unfold appointment_after_delete
  rw [if_pos]
  rw [List.all_eq_true]
  intro x hx
  obtain ⟨s, hs, rfl⟩ := List.mem_map.1 hx
  have hinvs := hinv s hs
  by_cases hid : (s.id == sid) = true
  · rw [if_pos hid]
    simp only [hid, Bool.not_true, Bool.false_or, check_appointment_limit,
      decide_eq_true_eq]
    unfold flooredDecrement
    split <;> omega
  · rw [if_neg hid]
    simp only [Bool.or_eq_true, Bool.not_eq_true', check_appointment_limit,
      decide_eq_true_eq]
    exact Or.inr hinvs.2

/-- A successful capacity release preserves the capacity invariant. -/
theorem slotsInv_afterDelete {slots : List TimeSlot} {sid : ℕ}
    {l : List TimeSlot} (h : appointment_after_delete slots sid = some l)
    (hinv : slotsInv slots) : slotsInv l := by
  rw [afterDelete_of_inv sid hinv] at h
  cases h
  intro x hx
  obtain ⟨s, hs, rfl⟩ := List.mem_map.1 hx
  have hinvs := hinv s hs
  by_cases hid : (s.id == sid) = true
  · rw [if_pos hid]
    refine ⟨?_, ?_⟩ <;> simp only [] <;> unfold flooredDecrement <;> split <;> omega
  · rw [if_neg hid]
    exact hinvs

/-- Inversion principle for the booking route: an attempt either fails,
reporting a reason and leaving the store untouched, or commits a new
pending appointment carrying the resolved services while incrementing the
chosen slot in the same unit of work. -/
theorem book_spec (st : DBState) (req : BookingRequest) :
    ((book_appointment st req).1 = st ∧
      ∃ r, (book_appointment st req).2 = .rejected r) ∨
    (∃ time_slot barber slots',
      findSlot st req.timeSlot = some time_slot ∧
      st.barbers.find? (fun b => b.id == req.barber) = some barber ∧
      appointment_after_insert st.slots time_slot.id = some slots' ∧
      book_appointment st req =
        ({ st with
            slots := slots'
            appointments :=
              calculate_totals
                ⟨st.nextApptId, time_slot.id, barber.id, .PENDING,
                  none, none, none, none, none,
                  selected_services st.services req.servicesNeeded⟩
                :: st.appointments
            nextApptId := st.nextApptId + 1 },
          .created st.nextApptId)) := by
  unfold book_appointment
  split
  · exact Or.inl ⟨rfl, _, rfl⟩
  split
  · exact Or.inl ⟨rfl, _, rfl⟩
  next time_slot hslot =>
    split
    · exact Or.inl ⟨rfl, _, rfl⟩
    split
    · exact Or.inl ⟨rfl, _, rfl⟩
    split
    · exact Or.inl ⟨rfl, _, rfl⟩
    next barber hbar =>
      split
      · exact Or.inl ⟨rfl, _, rfl⟩
      split
      · exact Or.inl ⟨rfl, _, rfl⟩
      next slots' hins =>
        exact Or.inr ⟨time_slot, barber, slots', hslot, hbar, hins, rfl⟩

/-- Inversion of a successful booking: the committed state carries the
incremented slot table (the row map of `appointment_after_insert`), the new
pending appointment at the head of the appointment table, and the bumped
id counter; nothing else changes. -/
theorem book_created_inv {st : DBState} {req : BookingRequest} {st' : DBState}
    {i : ℕ} {s : TimeSlot}
    (hfind : findSlot st req.timeSlot = some s)
    (hbook : book_appointment st req = (st', .created i)) :
    i = st.nextApptId ∧
    appointment_after_insert st.slots s.id = some st'.slots ∧
    st'.slots = st.slots.map (fun t =>
      if t.id == req.timeSlot then
        { t with current_appointments := t.current_appointments + 1 } else t) ∧
    (∃ barber, st.barbers.find? (fun b => b.id == req.barber) = some barber ∧
      st'.appointments =
        calculate_totals
          ⟨st.nextApptId, s.id, barber.id, .PENDING, none, none, none, none,
            none, selected_services st.services req.servicesNeeded⟩
          :: st.appointments) ∧
    st'.nextApptId = st.nextApptId + 1 ∧
    st'.barbers = st.barbers ∧ st'.services = st.services := by
  rcases book_spec st req with ⟨_, r, hr⟩ | ⟨ts, b, slots', hts, hb, hins, heq⟩
  · rw [hbook] at hr
    cases hr
  · have hpair : (st', BookResult.created i) =
        (({ st with
            slots := slots'
            appointments :=
              calculate_totals
                ⟨st.nextApptId, ts.id, b.id, .PENDING, none, none, none, none,
                  none, selected_services st.services req.servicesNeeded⟩
                :: st.appointments
            nextApptId := st.nextApptId + 1 } : DBState),
          BookResult.created st.nextApptId) := hbook.symm.trans heq
    have hts' : ts = s := by
      rw [hfind] at hts
      exact (Option.some.inj hts).symm
    subst hts'
    injection hpair with h1 h2
    subst h1
    have hid0 := List.find?_some
      (show st.slots.find? (fun t => t.id == req.timeSlot) = some ts from hfind)
    have hid' : ts.id = req.timeSlot := by simpa using hid0
    refine ⟨by injection h2, hins, ?_, ⟨b, hb, rfl⟩, rfl, rfl, rfl⟩
    unfold appointment_after_insert at hins
    split at hins
    · rw [hid'] at hins
      exact (Option.some.inj hins).symm
    · cases hins

/-- A successful booking rewrites the slot found by the request id to the
same row with its counter incremented by exactly one. -/
theorem book_increments_slot {st : DBState} {req : BookingRequest}
    {st' : DBState} {i : ℕ} {s : TimeSlot}
    (hfind : findSlot st req.timeSlot = some s)
    (hbook : book_appointment st req = (st', .created i)) :
    findSlot st' req.timeSlot =
      some { s with current_appointments := s.current_appointments + 1 } := by
  obtain ⟨_, _, hmap, _, _, _, _⟩ := book_created_inv hfind hbook
  unfold findSlot at hfind ⊢
  rw [hmap, find?_update_by_id st.slots req.timeSlot
    (fun t => { t with current_appointments := t.current_appointments + 1 })
    (fun t => rfl), hfind, Option.map_some']

/-- Deleting an existing appointment applies the floored decrement to the
slot it references and erases exactly that appointment row. -/
theorem delete_releases_slot {st : DBState} {appointment_id : ℕ}
    {a : Appointment} {s : TimeSlot}
    (hfa : st.appointments.find? (fun x => x.id == appointment_id) = some a)
    (hfs : findSlot st a.time_slot_id = some s)
    (hinv : slotsInv st.slots) :
    findSlot (delete_appointment st appointment_id) a.time_slot_id =
      some { s with
        current_appointments := flooredDecrement s.current_appointments } ∧
    (delete_appointment st appointment_id).appointments =
      st.appointments.eraseP (fun x => x.id == appointment_id) := by
  simp only [delete_appointment, hfa, afterDelete_of_inv a.time_slot_id hinv]
  refine ⟨?_, by trivial⟩
  unfold findSlot
  rw [show ({ st with
      slots := st.slots.map fun t =>
        if t.id == a.time_slot_id then
          { t with
            current_appointments := flooredDecrement t.current_appointments }
        else t
      appointments :=
        st.appointments.eraseP (fun x => x.id == appointment_id) } : DBState).slots
    = st.slots.map (fun t =>
        if t.id == a.time_slot_id then
          { t with
            current_appointments := flooredDecrement t.current_appointments }
        else t) from rfl]
  rw [find?_update_by_id st.slots a.time_slot_id
    (fun t => { t with current_appointments := flooredDecrement t.current_appointments })
    (fun t => rfl)]
  unfold findSlot at hfs
  rw [hfs, Option.map_some']

/-! ### C2 — reserve on create, floored release on delete -/

/-- C2: (a) a successful appointment creation against the requested slot
increments that slot counter by exactly one; (b) deleting an existing
appointment applies the floored decrement to its slot counter (a decrement
by one when positive, a no-op at zero, never an error) and removes exactly
that appointment; (c) a successful creation followed by deletion of the
created appointment restores the counter to its prior value — the create
leaves the counter nonzero because it was non-negative before, so the
floored decrement really subtracts one. -/
theorem c2_reserve_then_release :
    (∀ (st : DBState) (req : BookingRequest) (st' : DBState) (i : ℕ)
        (s : TimeSlot),
      findSlot st req.timeSlot = some s →
      book_appointment st req = (st', .created i) →
      findSlot st' req.timeSlot =
        some { s with current_appointments := s.current_appointments + 1 }) ∧
    (∀ (st : DBState) (appointment_id : ℕ) (a : Appointment) (s : TimeSlot),
      st.appointments.find? (fun x => x.id == appointment_id) = some a →
      findSlot st a.time_slot_id = some s →
      slotsInv st.slots →
      findSlot (delete_appointment st appointment_id) a.time_slot_id =
        some { s with
          current_appointments := flooredDecrement s.current_appointments } ∧
      (delete_appointment st appointment_id).appointments =
        st.appointments.eraseP (fun x => x.id == appointment_id)) ∧
    (∀ (st : DBState) (req : BookingRequest) (st' : DBState) (i : ℕ)
        (s : TimeSlot),
      findSlot st req.timeSlot = some s →
      0 ≤ s.current_appointments →
      slotsInv st.slots →
      book_appointment st req = (st', .created i) →
      findSlot (delete_appointment st' i) req.timeSlot = some s) := by
  refine ⟨fun st req st' i s hfind hbook => book_increments_slot hfind hbook,
    fun st id a s hfa hfs hinv => delete_releases_slot hfa hfs hinv, ?_⟩
  intro st req st' i s hfind h0 hinv hbook
  obtain ⟨hi, hins, hmap, ⟨barber, hbar, happts⟩, hnid, _, _⟩ :=
    book_created_inv hfind hbook
  have hid0 := List.find?_some
    (show st.slots.find? (fun t => t.id == req.timeSlot) = some s from hfind)
  have hid' : s.id = req.timeSlot := by simpa using hid0
  have hA := book_increments_slot hfind hbook
  have hinv' : slotsInv st'.slots := slotsInv_afterInsert hins hinv
  obtain ⟨newA, hnewA, hAid, hAts⟩ :
      ∃ newA : Appointment, st'.appointments = newA :: st.appointments ∧
        newA.id = i ∧ newA.time_slot_id = s.id := by
    refine ⟨_, happts, ?_, rfl⟩
    rw [hi]
    rfl
  have hfa : st'.appointments.find? (fun x => x.id == i) = some newA := by
    rw [hnewA]
    exact find?_head_pos (fun x : Appointment => x.id == i) _ _
      (beq_iff_eq.mpr hAid)
  have hA' : findSlot st' s.id =
      some { s with current_appointments := s.current_appointments + 1 } := by
    conv_lhs => rw [hid']
    exact hA
  have hfs : findSlot st' newA.time_slot_id =
      some { s with current_appointments := s.current_appointments + 1 } := by
    rw [hAts]
    exact hA'
  have hB := (delete_releases_slot hfa hfs hinv').1
  rw [hAts] at hB
  conv_lhs => rw [← hid']
  rw [hB]
  obtain ⟨sid, sdate, sper, savail, smax, scur, sbid⟩ := s
  have h0' : (0 : ℤ) ≤ scur := h0
  have hfl : flooredDecrement (scur + 1) = scur := by
    unfold flooredDecrement
    rw [if_pos (by omega)]
    omega
  simp [hfl]

/-- C2 witness: on the concrete store, booking slot 5 raises its counter
from 1 to 2; deleting the existing appointment lowers it from 1 to 0; and
booking then deleting the created appointment restores it to 1. -/
theorem c2_reserve_then_release_witness :
    findSlot (book_appointment stBooking reqValid).1 5 =
      some ⟨5, 10, .MORNING, true, 2, 2, 1⟩ ∧
    findSlot (delete_appointment stWithAppt 1) 5 =
      some ⟨5, 10, .MORNING, true, 2, 0, 1⟩ ∧
    findSlot (delete_appointment (book_appointment stBooking reqValid).1 1) 5 =
      some ⟨5, 10, .MORNING, true, 2, 1, 1⟩ :=
  ⟨c2_reserve_then_release.1 stBooking reqValid
      (book_appointment stBooking reqValid).1 1 ⟨5, 10, .MORNING, true, 2, 1, 1⟩
      (by decide) (by decide),
    (c2_reserve_then_release.2.1 stWithAppt 1
      ⟨1, 5, 1, .PENDING, none, none, none, none, none, [svcClassicCut]⟩
      ⟨5, 10, .MORNING, true, 2, 1, 1⟩ (by decide) (by decide) (by decide)).1,
    c2_reserve_then_release.2.2 stBooking reqValid
      (book_appointment stBooking reqValid).1 1 ⟨5, 10, .MORNING, true, 2, 1, 1⟩
      (by decide) (by decide) (by decide) (by decide)⟩

/-! ### C6 — orchestrator service validation -/

/-- C6 counterexample: service id 99 does not exist in the catalog, yet the
booking listing ids 1 and 99 is accepted and silently proceeds with the
reduced service set containing only service 1 — the orchestrator does not
reject a request whose service list fails to resolve fully. -/
theorem c6_bogus_service_id_silently_dropped :
    stBooking.services.find? (fun s => s.id == 99) = none ∧
    (book_appointment stBooking reqWithBogusService).2 = .created 1 ∧
    (book_appointment stBooking reqWithBogusService).1.appointments.map
      (fun a => a.services) = [[svcClassicCut]] := by
  decide

/-- C6 (amended): every failure of the booking orchestrator leaves the
store in its prior state and reports a specific reason; a successful
booking attaches exactly the resolved service subset (each requested id
that exists and is active); and every attached service does exist and is
active.  However, requested ids that do not resolve are silently dropped:
the attempt is rejected only when no requested service resolves at all. -/
theorem c6_failures_roll_back_and_services_validated :
    (∀ (st : DBState) (req : BookingRequest) (r : BookError),
      (book_appointment st req).2 = .rejected r →
      (book_appointment st req).1 = st) ∧
    (∀ (st : DBState) (req : BookingRequest) (st' : DBState) (i : ℕ),
      book_appointment st req = (st', .created i) →
      ∃ a, st'.appointments = a :: st.appointments ∧
        a.services = selected_services st.services req.servicesNeeded) ∧
    (∀ (services : List Service) (service_ids : List ℕ) (s : Service),
      s ∈ selected_services services service_ids →
      s ∈ services ∧ s.is_active = true) := by
  refine ⟨?_, ?_, ?_⟩
  · intro st req r hrej
    rcases book_spec st req with ⟨h1, _⟩ | ⟨ts, b, sl, _, _, _, heq⟩
    · exact h1
    · rw [heq] at hrej
      cases hrej
  · intro st req st' i hbook
    rcases book_spec st req with ⟨_, r, hr⟩ | ⟨ts, b, sl, _, _, _, heq⟩
    · rw [hbook] at hr
      cases hr
    · have hpair := hbook.symm.trans heq
      injection hpair with h1 h2
      subst h1
      exact ⟨_, rfl, rfl⟩
  · intro services service_ids s hs
    unfold selected_services at hs
    obtain ⟨sid, hsid, hmatch⟩ := List.mem_filterMap.1 hs
    cases hfind : services.find? (fun t => t.id == sid) with
    | none =>
      simp only [hfind] at hmatch
      exact Option.noConfusion hmatch
    | some s0 =>
      simp only [hfind] at hmatch
      by_cases hact : s0.is_active = true
      · rw [if_pos hact] at hmatch
        obtain rfl := Option.some.inj hmatch
        exact ⟨List.mem_of_find?_eq_some hfind, hact⟩
      · rw [if_neg hact] at hmatch
        cases hmatch

/-- C6 witness: a missing-field request is rejected and changes nothing;
the successful booking listing ids 1 and 99 attaches exactly the resolved
subset; and the resolved service exists and is active. -/
theorem c6_failures_roll_back_witness :
    (book_appointment stBooking reqNoFields).1 = stBooking ∧
    (∃ a, (book_appointment stBooking reqWithBogusService).1.appointments =
      a :: stBooking.appointments ∧
      a.services = selected_services stBooking.services
        reqWithBogusService.servicesNeeded) ∧
    (svcClassicCut ∈ stBooking.services ∧ svcClassicCut.is_active = true) :=
  ⟨c6_failures_roll_back_and_services_validated.1 stBooking reqNoFields
      .missingFields (by decide),
    c6_failures_roll_back_and_services_validated.2.1 stBooking
      reqWithBogusService (book_appointment stBooking reqWithBogusService).1 1
      (by decide),
    c6_failures_roll_back_and_services_validated.2.2 stBooking.services
      reqWithBogusService.servicesNeeded svcClassicCut (by decide)⟩

/-! ### C8 — slot generation -/

/-- The generation fold only appends, and every appended slot is available
with capacity 2, counter 0 and the generating barber. -/
theorem genFold_shape (bid : ℕ) (ps : List (ℕ × TimeSlotPeriod)) :
    ∀ acc : List TimeSlot × ℕ,
      ∃ ex, (ps.foldl (genStep bid) acc).1 = acc.1 ++ ex ∧
        ∀ s ∈ ex, s.is_available = true ∧ s.max_appointments = 2 ∧
          s.current_appointments = 0 ∧ s.barber_id = bid := by
  induction ps with
  | nil =>
    intro acc
    exact ⟨[], by simp, by simp⟩
  | cons q ps ih =>
    intro acc
    rw [List.foldl_cons]
    by_cases h : slotExists acc.1 q.1 q.2 bid = true
    · have hstep : genStep bid acc q = acc := by
        unfold genStep
        rw [if_pos h]
      rw [hstep]
      exact ih acc
    · have hstep : genStep bid acc q =
          (acc.1 ++ [⟨acc.2, q.1, q.2, true, 2, 0, bid⟩], acc.2 + 1) := by
        unfold genStep
        rw [if_neg h]
      rw [hstep]
      obtain ⟨ex, hex, hprop⟩ :=
        ih (acc.1 ++ [⟨acc.2, q.1, q.2, true, 2, 0, bid⟩], acc.2 + 1)
      refine ⟨⟨acc.2, q.1, q.2, true, 2, 0, bid⟩ :: ex, ?_, ?_⟩
      · rw [hex]
        simp
      · intro s hs
        rcases List.mem_cons.1 hs with rfl | hs
        · exact ⟨rfl, rfl, rfl, rfl⟩
        · exact hprop s hs

/-- Existence of a slot for a key survives appending further slots. -/
theorem slotExists_append_left (l ex : List TimeSlot) (d : ℕ)
    (p : TimeSlotPeriod) (bid : ℕ) (h : slotExists l d p bid = true) :
    slotExists (l ++ ex) d p bid = true := by
  unfold slotExists at h ⊢
  rw [List.any_append, h, Bool.true_or]

/-- After the generation fold, a slot exists for every visited
(date, period) pair. -/
theorem genFold_covers (bid : ℕ) (ps : List (ℕ × TimeSlotPeriod)) :
    ∀ acc : List TimeSlot × ℕ, ∀ p ∈ ps,
      slotExists ((ps.foldl (genStep bid) acc).1) p.1 p.2 bid = true := by
  induction ps with
  | nil =>
    intro acc p hp
    cases hp
  | cons q ps ih =>
    intro acc p hp
    rw [List.foldl_cons]
    rcases List.mem_cons.1 hp with rfl | hp
    · obtain ⟨ex, hex, _⟩ := genFold_shape bid ps (genStep bid acc p)
      rw [hex]
      apply slotExists_append_left
      unfold genStep
      by_cases h : slotExists acc.1 p.1 p.2 bid = true
      · rw [if_pos h]
        exact h
      · rw [if_neg h]
        unfold slotExists
        rw [List.any_append]
        simp
    · exact ih (genStep bid acc q) p hp

/-- The generation fold changes nothing when every visited key already has
a slot. -/
theorem genFold_id (bid : ℕ) (ps : List (ℕ × TimeSlotPeriod)) :
    ∀ acc : List TimeSlot × ℕ,
      (∀ p ∈ ps, slotExists acc.1 p.1 p.2 bid = true) →
      ps.foldl (genStep bid) acc = acc := by
  induction ps with
  | nil =>
    intro acc _
    rfl
  | cons q ps ih =>
    intro acc h
    rw [List.foldl_cons]
    have hstep : genStep bid acc q = acc := by
      unfold genStep
      rw [if_pos (h q (List.mem_cons_self _ _))]
    rw [hstep]
    exact ih acc (fun p hp => h p (List.mem_cons_of_mem _ hp))

/-- C8: slot generation is additive only — existing slots are never
mutated or removed, every created slot has capacity 2 and counter 0 — and
idempotent: an immediate second call creates nothing.  On an empty slot
table with three days ahead it creates exactly the nine slots
(3 days x 3 periods, in declaration order), and the second call leaves
the table at nine. -/
theorem c8_generate_additive_idempotent :
    (∀ (st : DBState) (today days_ahead : ℕ),
      ∃ ex, (generate_time_slots st today days_ahead).slots = st.slots ++ ex ∧
        ∀ s ∈ ex, s.is_available = true ∧ s.max_appointments = 2 ∧
          s.current_appointments = 0) ∧
    (∀ (st : DBState) (today days_ahead : ℕ),
      generate_time_slots (generate_time_slots st today days_ahead) today
        days_ahead = generate_time_slots st today days_ahead) ∧
    (generate_time_slots stEmptySlots 7 3).slots.length = 9 ∧
    (generate_time_slots stEmptySlots 7 3).slots.map
      (fun s => (s.date, s.period)) = genPairs 7 3 ∧
    (generate_time_slots (generate_time_slots stEmptySlots 7 3) 7 3).slots.length
      = 9 := by
  refine ⟨?_, ?_, by decide, by decide, by decide⟩
  · intro st today d
    cases hb : st.barbers.find? (fun b => b.is_active) with
    | none =>
      simp only [generate_time_slots, hb]
      exact ⟨[], by simp, by simp⟩
    | some b =>
      simp only [generate_time_slots, hb]
      obtain ⟨ex, hex, hprop⟩ :=
        genFold_shape b.id (genPairs today d) (st.slots, st.nextSlotId)
      exact ⟨ex, hex, fun s hs =>
        ⟨(hprop s hs).1, (hprop s hs).2.1, (hprop s hs).2.2.1⟩⟩
  · intro st today d
    cases hb : st.barbers.find? (fun b => b.is_active) with
    | none =>
      simp only [generate_time_slots, hb]
    | some b =>
      simp only [generate_time_slots, hb]
      have heta : (((genPairs today d).foldl (genStep b.id)
            (st.slots, st.nextSlotId)).1,
          ((genPairs today d).foldl (genStep b.id)
            (st.slots, st.nextSlotId)).2) =
          (genPairs today d).foldl (genStep b.id) (st.slots, st.nextSlotId) :=
        rfl
      rw [heta, genFold_id b.id (genPairs today d) _
        (fun p hp => genFold_covers b.id (genPairs today d)
          (st.slots, st.nextSlotId) p hp)]

/-! ### C1 — the capacity invariant at every reachable state -/

/-- Replacing the looked-up row preserves the capacity invariant when the
produced row satisfies it. -/
theorem slotsInv_replaceFirst {l : List TimeSlot} {p : TimeSlot → Bool}
    {f : TimeSlot → TimeSlot} (hinv : slotsInv l)
    (hf : ∀ a, l.find? p = some a →
      0 ≤ (f a).current_appointments ∧
      (f a).current_appointments ≤ (f a).max_appointments) :
    slotsInv (replaceFirst p f l) := by
  intro x hx
  rcases mem_replaceFirst hx with hmem | ⟨a, ha, rfl⟩
  · exact hinv x hmem
  · exact hf a ha

/-- Appending invariant-satisfying slots preserves the invariant. -/
theorem slotsInv_append {l ex : List TimeSlot} (h1 : slotsInv l)
    (h2 : slotsInv ex) : slotsInv (l ++ ex) := by
  intro x hx
  rcases List.mem_append.1 hx with h | h
  · exact h1 x h
  · exact h2 x h

/-- C1: every state reachable from a fresh store — under any sequence of
bookings, appointment deletions, status updates, slot additions, edits,
deletions, availability toggles, slot generations and catalog toggles —
satisfies `0 <= current_appointments <= max_appointments` on every slot.
The upper bound is enforced by the schema CHECK constraint aborting any
unit of work that would overfill a slot (and by the capacity-floor guard
of slot edits); the lower bound by the floored decrement of the delete
listener. -/
theorem c1_capacity_invariant_reachable (st : DBState) (h : Reachable st) :
    slotsInv st.slots := by
  induction h with
  | init bs ss =>
    intro s hs
    cases hs
  | step st op hr ih =>
    cases op with
    | book req =>
      rcases book_spec st req with ⟨h1, _⟩ | ⟨ts, b, slots', hts, hb, hins, heq⟩
      · show slotsInv (book_appointment st req).1.slots
        rw [h1]
        exact ih
      · show slotsInv (book_appointment st req).1.slots
        rw [heq]
        exact slotsInv_afterInsert hins ih
    | deleteAppt id =>
      show slotsInv (delete_appointment st id).slots
      unfold delete_appointment
      cases hfa : st.appointments.find? (fun a => a.id == id) with
      | none => exact ih
      | some a =>
        simp only [afterDelete_of_inv a.time_slot_id ih]
        exact slotsInv_afterDelete (afterDelete_of_inv a.time_slot_id ih) ih
    | setStatus id ns now =>
      show slotsInv (update_appointment_status st id ns now).slots
      unfold update_appointment_status
      cases hfa : st.appointments.find? (fun a => a.id == id) with
      | none => exact ih
      | some a => exact ih
    | addSlot today date period bid maxA =>
      show slotsInv (add_timeslot st today date period bid maxA).slots
      unfold add_timeslot
      cases hb : st.barbers.find? (fun b => b.id == bid) with
      | none => exact ih
      | some b =>
        dsimp only
        by_cases h1 : (!b.is_active) = true
        · rw [if_pos h1]
          exact ih
        · rw [if_neg h1]
          by_cases h2 : slotExists st.slots date period bid = true
          · rw [if_pos h2]
            exact ih
          · rw [if_neg h2]
            by_cases h3 : date < today
            · rw [if_pos h3]
              exact ih
            · rw [if_neg h3]
              by_cases h4 : maxA < 0
              · rw [if_pos h4]
                exact ih
              · rw [if_neg h4]
                refine slotsInv_append ih ?_
                intro s hs
                rw [List.mem_singleton] at hs
                subst hs
                refine ⟨le_refl 0, ?_⟩
                dsimp only
                omega
    | editSlot id today date period bid maxA =>
      show slotsInv (edit_timeslot st id today date period bid maxA).slots
      unfold edit_timeslot
      cases hts : findSlot st id with
      | none => exact ih
      | some timeslot =>
        cases hb : st.barbers.find? (fun b => b.id == bid) with
        | none => exact ih
        | some b =>
          dsimp only
          by_cases h1 : (!b.is_active) = true
          · rw [if_pos h1]
            exact ih
          · rw [if_neg h1]
            by_cases h2 : maxA < timeslot.current_appointments
            · rw [if_pos h2]
              exact ih
            · rw [if_neg h2]
              by_cases h3 : st.slots.any (fun s =>
                  s.date == date && decide (s.period = period) &&
                  s.barber_id == bid && !(s.id == id)) = true
              · rw [if_pos h3]
                exact ih
              · rw [if_neg h3]
                by_cases h4 : date < today
                · rw [if_pos h4]
                  exact ih
                · rw [if_neg h4]
                  refine slotsInv_replaceFirst ih ?_
                  intro a ha
                  have haeq : a = timeslot := by
                    unfold findSlot at hts
                    exact Option.some.inj (ha.symm.trans hts)
                  subst haeq
                  have hmem := List.mem_of_find?_eq_some ha
                  have hinva := ih a hmem
                  refine ⟨hinva.1, ?_⟩
                  dsimp only
                  omega
    | delSlot id =>
      show slotsInv (delete_timeslot st id).slots
      unfold delete_timeslot
      cases hts : findSlot st id with
      | none => exact ih
      | some timeslot =>
        dsimp only
        by_cases h : 0 < timeslot.current_appointments
        · rw [if_pos h]
          exact ih
        · rw [if_neg h]
          intro s hs
          exact ih s ((List.eraseP_sublist _).subset hs)
    | toggleSlot id =>
      show slotsInv (toggle_timeslot_availability st id).slots
      unfold toggle_timeslot_availability
      cases hts : findSlot st id with
      | none => exact ih
      | some timeslot =>
        exact slotsInv_replaceFirst ih
          (fun a ha => ih a (List.mem_of_find?_eq_some ha))
    | genSlots today d =>
      show slotsInv (generate_time_slots st today d).slots
      cases hb : st.barbers.find? (fun b => b.is_active) with
      | none =>
        simp only [generate_time_slots, hb]
        exact ih
      | some b =>
        simp only [generate_time_slots, hb]
        obtain ⟨ex, hex, hprop⟩ :=
          genFold_shape b.id (genPairs today d) (st.slots, st.nextSlotId)
        rw [hex]
        refine slotsInv_append ih ?_
        intro s hs
        obtain ⟨_, hmax, hcur, _⟩ := hprop s hs
        rw [hcur, hmax]
        exact ⟨le_refl 0, by omega⟩
    | toggleBarber id =>
      show slotsInv (toggle_barber st id).slots
      unfold toggle_barber
      cases hb : st.barbers.find? (fun b => b.id == id) with
      | none => exact ih
      | some b => exact ih
    | toggleService id =>
      show slotsInv (toggle_service_status st id).slots
      unfold toggle_service_status
      cases hb : st.services.find? (fun s => s.id == id) with
      | none => exact ih
      | some s => exact ih

/-- C1 witness: the invariant holds at the concrete reachable state built
by generating slots and booking one of them from a fresh store. -/
theorem c1_capacity_invariant_witness :
    slotsInv (applyOp (applyOp
      { slots := []
        appointments := []
        barbers := [⟨1, true⟩]
        services := [svcClassicCut]
        nextSlotId := 1
        nextApptId := 1 } (.genSlots 7 3)) (.book ⟨true, true, 1, [1], 1⟩)).slots :=
  c1_capacity_invariant_reachable _
    (Reachable.step _ _ (Reachable.step _ _
      (Reachable.init [⟨1, true⟩] [svcClassicCut])))

theorem countPhase_middle_ne (c x : ConcPhase) (l1 l2 : List ConcPhase)
    (h : ¬ x = c) :
    countPhase c (l1 ++ x :: l2) = countPhase c l1 + countPhase c l2 := by
  induction l1 with
  | nil => simp [countPhase, h]
  | cons y ys ih =>
    simp only [List.cons_append, countPhase, List.append_eq, ih]
    omega

theorem countPhase_middle_eq (c : ConcPhase) (l1 l2 : List ConcPhase) :
    countPhase c (l1 ++ c :: l2) = countPhase c l1 + countPhase c l2 + 1 := by
  induction l1 with
  | nil =>
    simp [countPhase]
    omega
  | cons y ys ih =>
    simp only [List.cons_append, countPhase, List.append_eq, ih]
    omega

theorem countPhase_eq_zero_of_not_mem {c : ConcPhase} {l : List ConcPhase}
    (h : c ∉ l) : countPhase c l = 0 := by
  induction l with
  | nil => rfl
  | cons x xs ih =>
    have hx : ¬ (x = c) := fun he => h (by rw [he]; exact List.mem_cons_self _ _)
    simp [countPhase, hx]
    exact ih (fun hm => h (List.mem_cons_of_mem _ hm))

theorem countPhase_done_rejected (l : List ConcPhase)
    (h1 : ConcPhase.start ∉ l) (h2 : ConcPhase.passed ∉ l) :
    countPhase .done l + countPhase .rejected l = l.length := by
  induction l with
  | nil => rfl
  | cons x xs ih =>
    have hih := ih (fun hm => h1 (List.mem_cons_of_mem _ hm))
      (fun hm => h2 (List.mem_cons_of_mem _ hm))
    cases x with
    | start => exact absurd (List.mem_cons_self _ _) h1
    | passed => exact absurd (List.mem_cons_self _ _) h2
    | done =>
      simp [countPhase]
      omega
    | rejected =>
      simp [countPhase]
      omega

theorem mem_middle_iff (c x : ConcPhase) (l1 l2 : List ConcPhase) :
    c ∈ l1 ++ x :: l2 ↔ c ∈ l1 ∨ c = x ∨ c ∈ l2 := by
  simp [List.mem_append, List.mem_cons]

/-- Every interleaving step preserves the invariant. -/
theorem concInv_step {cur0 maxA : ℤ} {n : ℕ} {s1 s2 : ConcState}
    (hstep : ConcStep s1 s2) (hinv : ConcInv cur0 maxA n s1) :
    ConcInv cur0 maxA n s2 := by
  obtain ⟨hmax, hlen, hcount, hle, hrej⟩ := hinv
  cases hstep with
  | read_ok cur mA l1 l2 h =>
    dsimp only at hmax hlen hcount hle hrej
    refine ⟨hmax, ?_, ?_, hle, ?_⟩
    · show (l1 ++ ConcPhase.passed :: l2).length = n
      simpa using hlen
    · show cur = cur0 + (countPhase ConcPhase.done (l1 ++ ConcPhase.passed :: l2) : ℤ)
      rw [countPhase_middle_ne _ _ _ _ (by decide)] at hcount ⊢
      exact hcount
    · show ConcPhase.rejected ∈ l1 ++ ConcPhase.passed :: l2 → cur = maxA
      intro hm
      apply hrej
      rw [mem_middle_iff] at hm
      rw [mem_middle_iff]
      rcases hm with h2 | h2 | h2
      · exact Or.inl h2
      · cases h2
      · exact Or.inr (Or.inr h2)
  | read_full cur mA l1 l2 h =>
    dsimp only at hmax hlen hcount hle hrej
    refine ⟨hmax, ?_, ?_, hle, ?_⟩
    · show (l1 ++ ConcPhase.rejected :: l2).length = n
      simpa using hlen
    · show cur = cur0 + (countPhase ConcPhase.done (l1 ++ ConcPhase.rejected :: l2) : ℤ)
      rw [countPhase_middle_ne _ _ _ _ (by decide)] at hcount ⊢
      exact hcount
    · show ConcPhase.rejected ∈ l1 ++ ConcPhase.rejected :: l2 → cur = maxA
      intro _
      omega
  | commit_ok cur mA l1 l2 h =>
    dsimp only at hmax hlen hcount hle hrej
    refine ⟨hmax, ?_, ?_, ?_, ?_⟩
    · show (l1 ++ ConcPhase.done :: l2).length = n
      simpa using hlen
    · show cur + 1 = cur0 + (countPhase ConcPhase.done (l1 ++ ConcPhase.done :: l2) : ℤ)
      rw [countPhase_middle_ne _ _ _ _ (by decide)] at hcount
      rw [countPhase_middle_eq]
      push_cast at hcount ⊢
      omega
    · show cur + 1 ≤ maxA
      omega
    · show ConcPhase.rejected ∈ l1 ++ ConcPhase.done :: l2 → cur + 1 = maxA
      intro hm
      rw [mem_middle_iff] at hm
      have hmem : ConcPhase.rejected ∈ l1 ++ ConcPhase.passed :: l2 := by
        rw [mem_middle_iff]
        rcases hm with h2 | h2 | h2
        · exact Or.inl h2
        · cases h2
        · exact Or.inr (Or.inr h2)
      have := hrej hmem
      omega
  | commit_full cur mA l1 l2 h =>
    dsimp only at hmax hlen hcount hle hrej
    refine ⟨hmax, ?_, ?_, hle, ?_⟩
    · show (l1 ++ ConcPhase.rejected :: l2).length = n
      simpa using hlen
    · show cur = cur0 + (countPhase ConcPhase.done (l1 ++ ConcPhase.rejected :: l2) : ℤ)
      rw [countPhase_middle_ne _ _ _ _ (by decide)] at hcount ⊢
      exact hcount
    · show ConcPhase.rejected ∈ l1 ++ ConcPhase.rejected :: l2 → cur = maxA
      intro _
      omega

/-- The invariant holds along every interleaved execution. -/
theorem concInv_reach {cur0 maxA : ℤ} {n : ℕ} {s1 s2 : ConcState}
    (h : ConcReach s1 s2) (hinv : ConcInv cur0 maxA n s1) :
    ConcInv cur0 maxA n s2 := by
  induction h with
  | refl => exact hinv
  | tail _ hstep ih => exact concInv_step hstep ih

theorem countPhase_done_replicate_start (n : ℕ) :
    countPhase ConcPhase.done (List.replicate n ConcPhase.start) = 0 := by
  induction n with
  | zero => rfl
  | succ k ih => simp [List.replicate_succ, countPhase, ih]

/-- C4: when N clients concurrently attempt to book one slot with
remaining capacity `C = max - cur0` and `C < N`, every complete
interleaving of their admission reads and atomic commit steps ends with
exactly C committed creations, N - C rejected-as-full attempts, and the
counter equal to the capacity.  In particular two attempts with one unit
remaining never both succeed: the authoritative guard is the conditional
atomic increment-with-check inside the commit, not the earlier read. -/
theorem c4_concurrent_attempts_bounded (cur0 maxA : ℤ) (n : ℕ)
    (st : ConcState) (h0 : 0 ≤ cur0) (h1 : cur0 ≤ maxA)
    (hC : maxA - cur0 < (n : ℤ))
    (hreach : ConcReach ⟨cur0, maxA, List.replicate n .start⟩ st)
    (hterm : ConcTerminal st) :
    (countPhase .done st.clients : ℤ) = maxA - cur0 ∧
    (countPhase .rejected st.clients : ℤ) = (n : ℤ) - (maxA - cur0) ∧
    st.current_appointments = maxA := by
  have hstart := countPhase_done_replicate_start n
  have hinv0 : ConcInv cur0 maxA n ⟨cur0, maxA, List.replicate n .start⟩ := by
    refine ⟨rfl, List.length_replicate _ _, ?_, h1, ?_⟩
    · rw [hstart]
      simp
    · intro hm
      cases List.eq_of_mem_replicate hm
  obtain ⟨hmax, hlen, hcount, hle, hrej⟩ := concInv_reach hreach hinv0
  have hsum := countPhase_done_rejected st.clients hterm.1 hterm.2
  by_cases hmem : ConcPhase.rejected ∈ st.clients
  · have hcurmax := hrej hmem
    refine ⟨by omega, by omega, hcurmax⟩
  · exfalso
    have hrc := countPhase_eq_zero_of_not_mem hmem
    omega

/-- C4 witness: two attempts against a slot with one unit remaining
(counter 1, capacity 2): the interleaving where client one reads, commits,
and then client two reads full, ends with one success, one rejection and a
full counter. -/
theorem c4_concurrent_attempts_witness :
    (countPhase .done
      (⟨2, 2, [ConcPhase.done, ConcPhase.rejected]⟩ : ConcState).clients : ℤ)
      = 2 - 1 ∧
    (countPhase .rejected
      (⟨2, 2, [ConcPhase.done, ConcPhase.rejected]⟩ : ConcState).clients : ℤ)
      = (2 : ℤ) - (2 - 1) ∧
    (⟨2, 2, [ConcPhase.done, ConcPhase.rejected]⟩ : ConcState).current_appointments
      = 2 := by
  refine c4_concurrent_attempts_bounded 1 2 2
    ⟨2, 2, [ConcPhase.done, ConcPhase.rejected]⟩
    (by decide) (by decide) (by decide) ?_ (by decide)
  exact Relation.ReflTransGen.tail
    (Relation.ReflTransGen.tail
      (Relation.ReflTransGen.tail Relation.ReflTransGen.refl
        (ConcStep.read_ok 1 2 [] [.start] (by decide)))
      (ConcStep.commit_ok 1 2 [] [.start] (by decide)))
    (ConcStep.read_full 2 2 [.done] [] (by decide))
